import Mathlib

/-!
Shallow embedding of the numerical core of the collateralization-analysis
repository: the StableSwap invariant solver and marginal-price derivation
(`src/data/hydration_request.py`, class `Hydration_Request`) and the
drawdown-based risk statistic (`src/analysis/analysis.py`,
`get_initial_drawdown` and `Analysis.get_threshold_multiplier`).

Python floats are modelled as exact rationals (`ℚ`).  Python exceptions are
modelled with `Except PyError`.  The two source files differ in their
division semantics and both are modelled faithfully:

* `hydration_request.py` computes with plain Python `float`s, where division
  by zero raises `ZeroDivisionError` (`pydiv`);
* `analysis.py` computes on pandas `Series` of numpy `float64`, where
  division by zero silently produces a non-finite value (`inf`/`-inf`/`nan`)
  with only a `RuntimeWarning`; a non-finite float is modelled as `none` in
  `Option ℚ` (`np_div`).
-/

namespace Collat

/-- Outcomes with which the modelled Python code can abort.
`zeroDivision` is Python's `ZeroDivisionError`; `typeErrorNone` is the
`TypeError` raised by arithmetic on `None`; `indexError` is
`IndexError`/`KeyError` from indexing; `valueError` is the `ValueError`
raised by `min([])`; `invalidRange` is the generic
`Exception("Step must be smaller or equal to the length of the path.")`
raised by `get_threshold_multiplier` (the spec's InvalidRange);
`nonFiniteSamples` marks the branch where the source would sort a Python
list containing non-finite floats (NaN comparisons are all false, so the
resulting order is unspecified) — no theorem below depends on this branch. -/
inductive PyError
  | zeroDivision
  | typeErrorNone
  | indexError
  | valueError
  | invalidRange
  | nonFiniteSamples
  deriving DecidableEq

instance {ε α : Type} [DecidableEq ε] [DecidableEq α] : DecidableEq (Except ε α) :=
  fun x y =>
    match x, y with
    | .error a, .error b =>
      if h : a = b then .isTrue (congrArg Except.error h)
      else .isFalse (fun hh => h (Except.error.inj hh))
    | .error _, .ok _ => .isFalse (fun hh => Except.noConfusion hh)
    | .ok _, .error _ => .isFalse (fun hh => Except.noConfusion hh)
    | .ok a, .ok b =>
      if h : a = b then .isTrue (congrArg Except.ok h)
      else .isFalse (fun hh => h (Except.ok.inj hh))

/-- Python-`float` division: `a / b`, raising `ZeroDivisionError` on `b = 0`. -/
def pydiv (a b : ℚ) : Except PyError ℚ :=
  if b = 0 then .error .zeroDivision else .ok (a / b)

/-- numpy-`float64` division: `a / b`, yielding a non-finite value (modelled
as `none`) instead of raising when `b = 0`. -/
def np_div (a b : ℚ) : Option ℚ :=
  if b = 0 then none else some (a / b)

/-- Sequencing of fallible Python statements: propagate an exception, feed a
normal value to the continuation. -/
def ebind {α β : Type} (x : Except PyError α) (f : α → Except PyError β) :
    Except PyError β :=
  match x with
  | .error e => .error e
  | .ok v => f v

/-- Using a possibly-`None` Python value in arithmetic: `None` raises a
`TypeError`, otherwise the computation proceeds with the number. -/
def pyval {β : Type} (x : Option ℚ) (f : ℚ → Except PyError β) : Except PyError β :=
  match x with
  | none => .error .typeErrorNone
  | some d => f d

/-- Turning an optional lookup into Python indexing: a missing element is an
`IndexError`. -/
def oindex (x : Option ℚ) : Except PyError ℚ :=
  match x with
  | some v => .ok v
  | none => .error .indexError

/-- Guard marking the unspecified-order branch: if any drawdown sample is
non-finite, the source would sort a Python list containing NaN/Inf, whose
resulting order is unspecified; that branch is marked with the
`nonFiniteSamples` outcome and no theorem below depends on it. -/
def finGuard (x : Option (List ℚ)) (f : List ℚ → Except PyError (Option ℚ)) :
    Except PyError (Option ℚ) :=
  match x with
  | none => .error .nonFiniteSamples
  | some dd => f dd

/-- Python `int(x)`: truncation toward zero. -/
def pytrunc (x : ℚ) : ℤ :=
  if 0 ≤ x then ⌊x⌋ else ⌈x⌉

/-- Python positional prefix slice `xs[:m]`, including the negative-`m`
convention (`xs[:-1]` drops the last element). -/
def pyslice (xs : List ℚ) (m : ℤ) : List ℚ :=
  if 0 ≤ m then xs.take m.toNat else xs.take ((xs.length : ℤ) + m).toNat

/-- Python list indexing `xs[i]`, with the negative-index wrap-around and an
`IndexError` when out of range. -/
def pygetItem (xs : List ℚ) (i : ℤ) : Except PyError ℚ :=
  if 0 ≤ i then oindex (xs.get? i.toNat)
  else if 0 ≤ (xs.length : ℤ) + i then oindex (xs.get? ((xs.length : ℤ) + i).toNat)
  else .error .indexError

/-- Python `sorted(xs)` (ascending).  Stability is irrelevant for plain
rational values, so insertion sort gives the same list. -/
def sortAsc (l : List ℚ) : List ℚ := l.insertionSort (· ≤ ·)

/-- Python `xs.sort(reverse=True)` (descending). -/
def sortDesc (l : List ℚ) : List ℚ := (l.insertionSort (· ≤ ·)).reverse

/-! ## `src/data/hydration_request.py`, class `Hydration_Request`

The amplification and precision live on the `Stableswap_Pair` object
(`self._token_pair._amplification`, `self._token_pair._precision`); here
they are passed as explicit arguments. -/

/-- Embedding of `Hydration_Request.has_converged(v0, v1)`:

    diff = abs(v0 - v1)
    if (v1 <= v0 and diff < precision) or (v1 > v0 and diff <= precision):
        return True
    return False -/
def has_converged (precision v0 v1 : ℚ) : Bool :=
  if (v1 ≤ v0 ∧ |v0 - v1| < precision) ∨ (v1 > v0 ∧ |v0 - v1| ≤ precision) then
    true
  else
    false

/-- The inner loop of `calculate_d`:

    d_p = d
    for x in xp_sorted:
        d_p *= d / (x * len(balances))

`n` is `len(balances)` and the accumulator starts at `d`. -/
def dpLoop (d n : ℚ) : List ℚ → ℚ → Except PyError ℚ
  | [], dp => .ok dp
  | x :: xs, dp => ebind (pydiv d (x * n)) (fun q => dpLoop d n xs (dp * q))

/-- The outer loop of `calculate_d` (`for i in range(max_iterations)`),
with the remaining iteration count as fuel.  Falling out of the loop is the
source's implicit `return None`, modelled as `.ok none`:

    for i in range(max_iterations):
        d_p = d
        for x in xp_sorted:
            d_p *= d / (x * len(balances))
        d_prev = d
        d = (ann * s + d_p * n_coins) * d / ((ann - 1) * d + (n_coins + 1) * d_p)
        if self.has_converged(d_prev, d):
            return d -/
def calcDLoop (precision ann s n : ℚ) (xs : List ℚ) : ℚ → ℕ → Except PyError (Option ℚ)
  | _, 0 => .ok none
  | d, k + 1 =>
    ebind (dpLoop d n xs d) (fun dp =>
      ebind (pydiv ((ann * s + dp * n) * d) ((ann - 1) * d + (n + 1) * dp)) (fun dnext =>
        if has_converged precision d dnext then .ok (some dnext)
        else calcDLoop precision ann s n xs dnext k))

/-- Embedding of `Hydration_Request.calculate_d(balances, max_iterations=128)`:

    n_coins = len(balances)
    ann = self._token_pair._amplification * n_coins
    xp_sorted = sorted(reserves)
    s = sum(xp_sorted)
    if s == 0:
        return 0
    d = s
    <loop: see calcDLoop>

`.ok (some v)` models `return v`, `.ok none` models the implicit `None`
returned when the loop exhausts `max_iterations`. -/
def calculate_d (amplification precision : ℚ) (balances : List ℚ)
    (max_iterations : ℕ := 128) : Except PyError (Option ℚ) :=
  let n : ℚ := balances.length
  let ann := amplification * n
  let xp_sorted := sortAsc balances
  let s := xp_sorted.sum
  if s = 0 then .ok (some 0)
  else calcDLoop precision ann s n xp_sorted s max_iterations

/-- The `c` loop of `price_at_balance`:

    c = d
    sorted_bal = sorted(list(balances))
    for x in sorted_bal:
        c = c * d / (n * x) -/
def cLoop (d n : ℚ) : List ℚ → ℚ → Except PyError ℚ
  | [], c => .ok c
  | x :: xs, c => ebind (pydiv (c * d) (n * x)) (fun c2 => cLoop d n xs c2)

/-- Embedding of `Hydration_Request.price_at_balance(balances, i=1, j=0)`:

    n = len(balances)
    ann = self._token_pair._amplification * n
    d = self.calculate_d(balances)
    c = d
    sorted_bal = sorted(list(balances))
    for x in sorted_bal:
        c = c * d / (n * x)
    xi = balances[i]
    xj = balances[j]
    p = xj * (ann * xi + c) / (ann * xj + c) / xi
    return p

If `calculate_d` falls through and returns `None`, the first arithmetic
operation on `c = None` raises a `TypeError` (the balances list is non-empty
in that case, since an empty list has sum 0 and `calculate_d` then returns
`0`). -/
def price_at_balance (amplification precision : ℚ) (balances : List ℚ)
    (i : ℤ := 1) (j : ℤ := 0) : Except PyError ℚ :=
  let n : ℚ := balances.length
  let ann := amplification * n
  ebind (calculate_d amplification precision balances 128) (fun dOpt =>
    pyval dOpt (fun d =>
      ebind (cLoop d n (sortAsc balances) d) (fun c =>
        ebind (pygetItem balances i) (fun xi =>
          ebind (pygetItem balances j) (fun xj =>
            ebind (pydiv (xj * (ann * xi + c)) (ann * xj + c)) (fun t =>
              pydiv t xi))))))

/-! ## `src/analysis/analysis.py` -/

/-- Embedding of `get_initial_drawdown(series)`:

    return (min(series) / series[0] - 1)

`min` of an empty series raises `ValueError`.  The series holds numpy
`float64` values, so a zero first element silently yields a non-finite
sample (`none`), not an exception. -/
def get_initial_drawdown : List ℚ → Except PyError (Option ℚ)
  | [] => .error .valueError
  | x :: xs => .ok ((np_div (List.foldl min x xs) x).map (fun m => m - 1))

/-- The drawdown-collection loop of `get_threshold_multiplier`:

    initial_drawdowns = []
    for _, path in self._simulation.paths.iteritems():
        initial_drawdowns.append(get_initial_drawdown(path[:at_step])) -/
def ddList (step : ℤ) : List (List ℚ) → Except PyError (List (Option ℚ))
  | [] => .ok []
  | p :: ps =>
    ebind (get_initial_drawdown (pyslice p step)) (fun v =>
      ebind (ddList step ps) (fun vs => .ok (v :: vs)))

/-- Extracts the underlying rationals when every sample is finite. -/
def allFinite : List (Option ℚ) → Option (List ℚ)
  | [] => some []
  | some q :: xs => (allFinite xs).map (fun l => q :: l)
  | none :: _ => none

/-- Embedding of `Analysis.get_threshold_multiplier(alpha, at_step=None)`:

    at_step = -1 if at_step is None else at_step
    if at_step > len(self._simulation.paths[0]):
        raise Exception("Step must be smaller or equal to the length of the path.")
    initial_drawdowns = [get_initial_drawdown(path[:at_step]) for path in paths]
    initial_drawdowns.sort(reverse=True)
    value_at_risk = initial_drawdowns[int(len(initial_drawdowns) * alpha)]
    return (1 / (1 + value_at_risk))

The paths collection (`self._simulation.paths`) comes from a Simulation
object outside `src/`; per the spec (§6), it is a collection of ordered
sequences of reals "of equal or varying length", modelled as
`List (List ℚ)`.  An empty collection makes `paths[0]` raise
(`indexError`).  If some sample is non-finite the source would sort a list
containing NaN/Inf, whose order is unspecified; that branch is marked
`nonFiniteSamples` and is never exercised by the theorems below.  The final
`1 / (1 + value_at_risk)` is again numpy arithmetic (`np_div`). -/
def get_threshold_multiplier (paths : List (List ℚ)) (alpha : ℚ)
    (at_step : Option ℤ) : Except PyError (Option ℚ) :=
  let step : ℤ := match at_step with | none => -1 | some k => k
  match paths with
  | [] => .error .indexError
  | p0 :: _ =>
    if step > (p0.length : ℤ) then .error .invalidRange
    else
      ebind (ddList step paths) (fun samples =>
        finGuard (allFinite samples) (fun dd =>
          ebind (pygetItem (sortDesc dd) (pytrunc ((dd.length : ℚ) * alpha))) (fun v =>
            .ok (np_div 1 (1 + v)))))

/-- The drawdown sample as the spec and the claims word it: the minimum of
the path divided by its first element, minus one (`min(path)/path[0] - 1`),
over the whole path. -/
def ddFull (p : List ℚ) : ℚ :=
  List.foldl min (p.headD 0) p.tail / p.headD 0 - 1

/-! ## Helper lemmas -/

@[simp] lemma ebind_ok {α β : Type} (v : α) (f : α → Except PyError β) :
    ebind (.ok v) f = f v := rfl

@[simp] lemma ebind_error {α β : Type} (e : PyError) (f : α → Except PyError β) :
    ebind (.error e) f = .error e := rfl

@[simp] lemma pyval_some {β : Type} (d : ℚ) (f : ℚ → Except PyError β) :
    pyval (some d) f = f d := rfl

@[simp] lemma pyval_none {β : Type} (f : ℚ → Except PyError β) :
    pyval none f = .error .typeErrorNone := rfl

@[simp] lemma oindex_some (v : ℚ) : oindex (some v) = .ok v := rfl

@[simp] lemma oindex_none : oindex none = .error .indexError := rfl

@[simp] lemma finGuard_some (dd : List ℚ) (f : List ℚ → Except PyError (Option ℚ)) :
    finGuard (some dd) f = f dd := rfl

@[simp] lemma finGuard_none (f : List ℚ → Except PyError (Option ℚ)) :
    finGuard none f = .error .nonFiniteSamples := rfl

lemma pydiv_ok {a b r : ℚ} (h : pydiv a b = .ok r) : b ≠ 0 ∧ r = a / b := by
  unfold pydiv at h
  split at h
  · exact Except.noConfusion h
  · rename_i hb
    exact ⟨hb, (Except.ok.inj h).symm⟩

lemma pydiv_of_ne {a b : ℚ} (hb : b ≠ 0) : pydiv a b = .ok (a / b) := by
  unfold pydiv
  rw [if_neg hb]

lemma np_div_ok {a b m : ℚ} (h : np_div a b = some m) : b ≠ 0 ∧ m = a / b := by
  unfold np_div at h
  split at h
  · exact Option.noConfusion h
  · rename_i hb
    exact ⟨hb, (Option.some.inj h).symm⟩

lemma np_div_of_ne {a b : ℚ} (hb : b ≠ 0) : np_div a b = some (a / b) := by
  unfold np_div
  rw [if_neg hb]

lemma oindex_ok_mem {xs : List ℚ} {n : ℕ} {v : ℚ}
    (h : oindex (xs.get? n) = .ok v) : v ∈ xs := by
  cases hget : xs.get? n with
  | none => rw [hget, oindex_none] at h; exact Except.noConfusion h
  | some w =>
    rw [hget, oindex_some] at h
    exact (Except.ok.inj h) ▸ List.get?_mem hget

lemma pygetItem_ok_mem {xs : List ℚ} {i : ℤ} {v : ℚ}
    (h : pygetItem xs i = .ok v) : v ∈ xs := by
  simp only [pygetItem] at h
  split at h
  · exact oindex_ok_mem h
  · split at h
    · exact oindex_ok_mem h
    · exact Except.noConfusion h

lemma oindex_err {x : Option ℚ} {e : PyError}
    (h : oindex x = .error e) : e = .indexError := by
  cases x with
  | none => exact (Except.error.inj h).symm
  | some w => exact Except.noConfusion h

lemma pygetItem_err {xs : List ℚ} {i : ℤ} {e : PyError}
    (h : pygetItem xs i = .error e) : e = .indexError := by
  simp only [pygetItem] at h
  split at h
  · exact oindex_err h
  · split at h
    · exact oindex_err h
    · exact (Except.error.inj h).symm

lemma pygetItem_nat {xs : List ℚ} {n : ℕ} {v : ℚ} (hget : xs.get? n = some v) :
    pygetItem xs (n : ℤ) = .ok v := by
  simp only [pygetItem, if_pos (Int.ofNat_nonneg n), Int.toNat_natCast, hget,
    oindex_some]

lemma foldl_min_le_init : ∀ (l : List ℚ) (a : ℚ), List.foldl min a l ≤ a
  | [], a => le_refl a
  | x :: xs, a => (foldl_min_le_init xs (min a x)).trans (min_le_left a x)

lemma foldl_min_pos : ∀ (l : List ℚ) (a : ℚ), (∀ x ∈ l, 0 < x) → 0 < a →
    0 < List.foldl min a l
  | [], _, _, ha => ha
  | x :: xs, a, h, ha =>
    foldl_min_pos xs (min a x) (fun y hy => h y (List.mem_cons_of_mem x hy))
      (lt_min ha (h x (List.mem_cons_self x xs)))

lemma gid_err : ∀ {xs : List ℚ} {e : PyError},
    get_initial_drawdown xs = .error e → e = .valueError
  | [], _, h => (Except.error.inj h).symm
  | _ :: _, _, h => Except.noConfusion h

lemma gid_pos_bounds {xs : List ℚ} {v : ℚ} (hpos : ∀ x ∈ xs, 0 < x)
    (h : get_initial_drawdown xs = .ok (some v)) : -1 < v ∧ v ≤ 0 := by
  cases xs with
  | nil => exact absurd h (by simp [get_initial_drawdown])
  | cons x t =>
    have hx : 0 < x := hpos x (List.mem_cons_self x t)
    have hminpos : 0 < List.foldl min x t :=
      foldl_min_pos t x (fun y hy => hpos y (List.mem_cons_of_mem x hy)) hx
    have hminle : List.foldl min x t ≤ x := foldl_min_le_init t x
    simp only [get_initial_drawdown, np_div_of_ne hx.ne', Option.map_some'] at h
    have hv : List.foldl min x t / x - 1 = v := by
      simpa using Except.ok.inj h
    constructor
    · have hq : 0 < List.foldl min x t / x := div_pos hminpos hx
      linarith
    · have hq : List.foldl min x t / x ≤ 1 := (div_le_one hx).mpr hminle
      linarith

lemma ddList_err {step : ℤ} : ∀ {ps : List (List ℚ)} {e : PyError},
    ddList step ps = .error e → e = .valueError := by
  intro ps
  induction ps with
  | nil =>
    intro e h
    exact absurd h (by simp [ddList])
  | cons p ps ih =>
    intro e h
    simp only [ddList] at h
    cases hg : get_initial_drawdown (pyslice p step) with
    | error e' =>
      rw [hg, ebind_error] at h
      exact (Except.error.inj h) ▸ gid_err hg
    | ok w =>
      rw [hg, ebind_ok] at h
      cases hd : ddList step ps with
      | error e' =>
        rw [hd, ebind_error] at h
        exact (Except.error.inj h) ▸ ih hd
      | ok ws =>
        rw [hd, ebind_ok] at h
        exact Except.noConfusion h

lemma ddList_mem {step : ℤ} : ∀ {paths : List (List ℚ)}
    {samples : List (Option ℚ)} {dd : List ℚ} {v : ℚ},
    ddList step paths = .ok samples → allFinite samples = some dd → v ∈ dd →
    ∃ p ∈ paths, get_initial_drawdown (pyslice p step) = .ok (some v) := by
  intro paths
  induction paths with
  | nil =>
    intro samples dd v h1 h2 hv
    simp only [ddList] at h1
    have hs : ([] : List (Option ℚ)) = samples := Except.ok.inj h1
    subst hs
    simp only [allFinite] at h2
    have hd : ([] : List ℚ) = dd := Option.some.inj h2
    subst hd
    exact absurd hv (List.not_mem_nil v)
  | cons p ps ih =>
    intro samples dd v h1 h2 hv
    simp only [ddList] at h1
    cases hw : get_initial_drawdown (pyslice p step) with
    | error e' =>
      rw [hw, ebind_error] at h1
      exact Except.noConfusion h1
    | ok w =>
      rw [hw, ebind_ok] at h1
      cases hws : ddList step ps with
      | error e' =>
        rw [hws, ebind_error] at h1
        exact Except.noConfusion h1
      | ok ws =>
        rw [hws, ebind_ok] at h1
        have hs : w :: ws = samples := Except.ok.inj h1
        subst hs
        cases w with
        | none => exact absurd h2 (by simp [allFinite])
        | some q =>
          simp only [allFinite] at h2
          cases hws2 : allFinite ws with
          | none =>
            rw [hws2] at h2
            exact absurd h2 (by simp)
          | some l =>
            rw [hws2] at h2
            simp only [Option.map_some'] at h2
            have hd : q :: l = dd := Option.some.inj h2
            subst hd
            rcases List.mem_cons.mp hv with hq | hl
            · exact ⟨p, List.mem_cons_self p ps, hq ▸ hw⟩
            · obtain ⟨p', hp', hgid⟩ := ih hws hws2 hl
              exact ⟨p', List.mem_cons_of_mem p hp', hgid⟩

lemma allFinite_map_some : ∀ (l : List ℚ), allFinite (l.map some) = some l
  | [] => rfl
  | q :: l => by simp [allFinite, allFinite_map_some l]

lemma calcDLoop_converged {precision ann s n d dp dnext : ℚ} {xs : List ℚ} {k : ℕ}
    (hdp : dpLoop d n xs d = .ok dp)
    (hdn : pydiv ((ann * s + dp * n) * d) ((ann - 1) * d + (n + 1) * dp) = .ok dnext)
    (hc : has_converged precision d dnext = true) :
    calcDLoop precision ann s n xs d (k + 1) = .ok (some dnext) := by
  simp only [calcDLoop, hdp, ebind_ok, hdn, hc, if_true]

lemma mem_sortDesc {v : ℚ} {l : List ℚ} (h : v ∈ sortDesc l) : v ∈ l := by
  rw [sortDesc, List.mem_reverse] at h
  exact (List.perm_insertionSort _ l).mem_iff.mp h

lemma length_sortDesc (l : List ℚ) : (sortDesc l).length = l.length := by
  rw [sortDesc, List.length_reverse, (List.perm_insertionSort _ l).length_eq]

lemma pyslice_subset (p : List ℚ) (m : ℤ) : pyslice p m ⊆ p := by
  unfold pyslice
  split
  · exact List.take_subset _ _
  · exact List.take_subset _ _

/-- The function `get_threshold_multiplier` with a given `at_step` raises the range error
exactly when `at_step` exceeds the length of the **first** path; the other
paths are never validated. -/
lemma gtm_invalidRange_iff (p0 : List ℚ) (ps : List (List ℚ)) (alpha : ℚ) (k : ℤ) :
    get_threshold_multiplier (p0 :: ps) alpha (some k) = .error .invalidRange ↔
      (p0.length : ℤ) < k := by
  constructor
  · intro h
    by_contra hk
    simp only [get_threshold_multiplier] at h
    rw [if_neg hk] at h
    cases hdl : ddList k (p0 :: ps) with
    | error e =>
      rw [hdl, ebind_error] at h
      have hv : e = .valueError := ddList_err hdl
      rw [Except.error.inj h] at hv
      exact PyError.noConfusion hv
    | ok samples =>
      rw [hdl, ebind_ok] at h
      cases haf : allFinite samples with
      | none =>
        rw [haf, finGuard_none] at h
        exact PyError.noConfusion (Except.error.inj h)
      | some dd =>
        rw [haf, finGuard_some] at h
        cases hpi : pygetItem (sortDesc dd) (pytrunc ((dd.length : ℚ) * alpha)) with
        | error e =>
          rw [hpi, ebind_error] at h
          have hv : e = .indexError := pygetItem_err hpi
          rw [Except.error.inj h] at hv
          exact PyError.noConfusion hv
        | ok v =>
          rw [hpi, ebind_ok] at h
          exact Except.noConfusion h
  · intro hk
    simp only [get_threshold_multiplier]
    rw [if_pos hk]

/-- Core of C9: once past the range check, a successful value of the
threshold-multiplier computation on everywhere-positive paths is at least
one, because every drawdown sample lies in `(-1, 0]`. -/
lemma gtm_tail_ge_one {paths : List (List ℚ)} {step : ℤ} {alpha m : ℚ}
    (hpos : ∀ p ∈ paths, ∀ x ∈ p, 0 < x)
    (h : ebind (ddList step paths) (fun samples =>
        finGuard (allFinite samples) (fun dd =>
          ebind (pygetItem (sortDesc dd) (pytrunc ((dd.length : ℚ) * alpha)))
            (fun v => .ok (np_div 1 (1 + v))))) = .ok (some m)) :
    1 ≤ m := by
  cases hdl : ddList step paths with
  | error e => rw [hdl, ebind_error] at h; exact Except.noConfusion h
  | ok samples =>
    rw [hdl, ebind_ok] at h
    cases haf : allFinite samples with
    | none => rw [haf, finGuard_none] at h; exact Except.noConfusion h
    | some dd =>
      rw [haf, finGuard_some] at h
      cases hpi : pygetItem (sortDesc dd) (pytrunc ((dd.length : ℚ) * alpha)) with
      | error e => rw [hpi, ebind_error] at h; exact Except.noConfusion h
      | ok v =>
        rw [hpi, ebind_ok] at h
        have hnp : np_div 1 (1 + v) = some m := Except.ok.inj h
        obtain ⟨hne, hm⟩ := np_div_ok hnp
        have hv_mem : v ∈ dd := mem_sortDesc (pygetItem_ok_mem hpi)
        obtain ⟨p, hp_mem, hgid⟩ := ddList_mem hdl haf hv_mem
        have hslice_pos : ∀ x ∈ pyslice p step, 0 < x :=
          fun x hx => hpos p hp_mem x (pyslice_subset p step hx)
        obtain ⟨hgt, hle⟩ := gid_pos_bounds hslice_pos hgid
        have h1v : 0 < 1 + v := by linarith
        rw [hm, le_div_iff₀ h1v]
        linarith

/-- The drawdown-sample list computed by the `ddList` loop when every path
has length `L` and a nonzero first element, with `at_step = L`: the slice is
the whole path and every sample is the finite `ddFull` value. -/
lemma ddList_full {L : ℕ} (hL : 0 < L) :
    ∀ (paths : List (List ℚ)), (∀ p ∈ paths, p.length = L) →
      (∀ p ∈ paths, p.headD 0 ≠ 0) →
      ddList (L : ℤ) paths = .ok (paths.map (fun p => some (ddFull p))) := by
  intro paths
  induction paths with
  | nil => intro _ _; rfl
  | cons p ps ih =>
    intro hlen hhead
    have hp : p.length = L := hlen p (List.mem_cons_self p ps)
    have hslice : pyslice p (L : ℤ) = p := by
      unfold pyslice
      rw [if_pos (Int.ofNat_nonneg L), Int.toNat_natCast, ← hp, List.take_length]
    simp only [ddList, hslice]
    cases p with
    | nil =>
      exact absurd hp (by simpa using hL.ne)
    | cons x t =>
      have hx : x ≠ 0 := by simpa using hhead (x :: t) (List.mem_cons_self _ _)
      simp only [get_initial_drawdown, np_div_of_ne hx, Option.map_some', ebind_ok]
      rw [ih (fun q hq => hlen q (List.mem_cons_of_mem _ hq))
          (fun q hq => hhead q (List.mem_cons_of_mem _ hq)), ebind_ok]
      simp [ddFull]

/-! ## Claim theorems -/

/-- C1: the claim says that when the Newton iteration exhausts
`max_iterations` without satisfying the convergence test, `calculate_d`
fails with a NonConvergence error.  The code instead falls out of the loop
and implicitly returns `None`.  Demonstration at balances `[1, 2]`,
amplification `1`, precision `10⁻⁶`, `max_iterations = 1`: the single
iteration maps `d = 3` to `d = 102/35`, the convergence test rejects the
pair, and `calculate_d` returns `None` (`.ok none`) — no error is raised
and no number is returned. -/
theorem claim_C1_exhaustion_returns_none :
    has_converged (1/1000000) 3 (102/35) = false ∧
      calculate_d 1 (1/1000000) [1, 2] 1 = .ok none := by
  constructor
  · norm_num [has_converged, abs_of_nonneg]
  · norm_num [calculate_d, calcDLoop, dpLoop, pydiv, has_converged, abs_of_nonneg,
      sortAsc, List.insertionSort, List.orderedInsert]

/-- C2: `has_converged` accepts exactly when, with `diff = |prev − next|`,
either `next ≤ prev` and `diff < precision` (strict), or `next > prev` and
`diff ≤ precision` (non-strict). -/
theorem claim_C2_convergence_tie_break (prev next precision : ℚ)
    (_hp : 0 < precision) :
    has_converged precision prev next = true ↔
      ((next ≤ prev ∧ |prev - next| < precision) ∨
        (prev < next ∧ |prev - next| ≤ precision)) := by
  unfold has_converged
  split
  · rename_i h
    simp only [gt_iff_lt] at h
    simpa using h
  · rename_i h
    simp only [gt_iff_lt] at h
    simpa using h

/-- Witness for C2 at `prev = 3`, `next = 2`, `precision = 1`: the diff is
exactly `1`, the iterate is decreasing, so the strict bound applies and the
test rejects. -/
theorem claim_C2_witness :
    (0:ℚ) < 1 ∧
      (has_converged 1 3 2 = true ↔
        (((2:ℚ) ≤ 3 ∧ |(3:ℚ) - 2| < 1) ∨ ((3:ℚ) < 2 ∧ |(3:ℚ) - 2| ≤ 1))) :=
  ⟨by norm_num, claim_C2_convergence_tie_break 3 2 1 (by norm_num)⟩

/-- C3: the claim (and the function's own docstring) says that with
`at_step = None` the whole path is used.  The code substitutes `-1` for
`None` and slices `path[:-1]`, dropping the last element.  On the path
`[2, 3, 1]` whose minimum is its last element, the code returns multiplier
`1` (drawdown `0` over `[2, 3]`), while the full-path drawdown is `-1/2`,
which would give multiplier `2`. -/
theorem claim_C3_default_drops_last_element :
    get_threshold_multiplier [[2, 3, 1]] (1/2) none = .ok (some 1) ∧
      get_initial_drawdown [2, 3, 1] = .ok (some (-(1/2))) ∧
      np_div 1 (1 + -(1/2)) = some 2 := by
  refine ⟨?_, ?_, ?_⟩
  · norm_num [get_threshold_multiplier, ddList, pyslice]
    try simp
    try norm_num [get_initial_drawdown, np_div, min_def]
    try simp [allFinite, sortDesc, sortAsc, List.insertionSort, List.orderedInsert,
      pygetItem, pytrunc]
    try norm_num
    try simp
    try norm_num
  · norm_num [get_initial_drawdown, np_div, min_def]
  · norm_num [np_div]

/-- C6: the claim says a zero-sum balance vector yields `D = 0` (true: both
for `[0, 0]` and for the mixed-sign `[1, -1]`) and that `price_at_balance`
then fails with an InvalidInput error rather than dividing by zero (false:
on `[0, 0]` the `c` loop divides by `n * 0` and raises `ZeroDivisionError`,
and on `[1, -1]` the price computation silently returns `1`). -/
theorem claim_C6_zero_sum_degenerate :
    calculate_d 100 (1/1000) [0, 0] 128 = .ok (some 0) ∧
      calculate_d 100 (1/1000) [1, -1] 128 = .ok (some 0) ∧
      price_at_balance 100 (1/1000) [0, 0] 1 0 = .error .zeroDivision ∧
      price_at_balance 100 (1/1000) [1, -1] 1 0 = .ok 1 := by
  refine ⟨?_, ?_, ?_, ?_⟩
  · norm_num [calculate_d, sortAsc, List.insertionSort, List.orderedInsert]
  · norm_num [calculate_d, sortAsc, List.insertionSort, List.orderedInsert]
  · norm_num [price_at_balance, calculate_d, cLoop, pydiv, sortAsc,
      List.insertionSort, List.orderedInsert]
  · norm_num [price_at_balance, calculate_d, cLoop, pydiv, pygetItem, sortAsc,
      List.insertionSort, List.orderedInsert]
    try simp
    try norm_num [pydiv]

/-- C7: the claim says a path whose first element is `0` makes the drawdown
computation fail with an explicit ArithmeticError.  The series holds numpy
`float64` values, for which division by zero does not raise: for every tail
`xs`, `get_initial_drawdown (0 :: xs)` returns normally (`.ok`) carrying a
silent non-finite value (`none` models NaN/−Inf), not an error. -/
theorem claim_C7_zero_first_element_silent (xs : List ℚ) :
    get_initial_drawdown (0 :: xs) = .ok none := by
  simp [get_initial_drawdown, np_div]

/-- C4: on a non-empty collection of paths of uniform length `L` with
nonzero first elements, invoked over the full paths (`at_step = L`), and for
any `alpha ∈ (0, 1)` (the selected index is then automatically in range),
`get_threshold_multiplier` returns `1 / (1 + v)` where `v` is the entry at
0-based index `⌊n·alpha⌋` of the `n` per-path drawdown samples
`min(path)/path[0] − 1` sorted in descending order; the sorted sequence is
indeed a `≥`-sorted permutation of the samples. -/
theorem claim_C4_rank_based_quantile (paths : List (List ℚ)) (L : ℕ) (alpha : ℚ)
    (hne : paths ≠ [])
    (hlen : ∀ p ∈ paths, p.length = L) (hL : 0 < L)
    (hhead : ∀ p ∈ paths, p.headD 0 ≠ 0)
    (ha0 : 0 < alpha) (ha1 : alpha < 1) :
    List.Sorted (· ≥ ·) (sortDesc (paths.map ddFull)) ∧
      (sortDesc (paths.map ddFull)).Perm (paths.map ddFull) ∧
      get_threshold_multiplier paths alpha (some (L : ℤ)) =
        .ok (np_div 1 (1 + (sortDesc (paths.map ddFull)).getD
          (⌊(paths.length : ℚ) * alpha⌋).toNat 0)) := by
  obtain ⟨p0, rest, rfl⟩ : ∃ p0 rest, paths = p0 :: rest := by
    cases paths with
    | nil => exact absurd rfl hne
    | cons a b => exact ⟨a, b, rfl⟩
  refine ⟨?_, ?_, ?_⟩
  · rw [sortDesc, List.Sorted, List.pairwise_reverse]
    have h1 := List.sorted_insertionSort (α := ℚ) (· ≤ ·) ((p0 :: rest).map ddFull)
    simpa [List.Sorted, flip, ge_iff_le] using h1
  · exact (List.reverse_perm _).trans (List.perm_insertionSort _ _)
  · have hp0 : p0.length = L := hlen p0 (List.mem_cons_self p0 rest)
    simp only [get_threshold_multiplier]
    rw [if_neg (by simp [hp0])]
    rw [ddList_full hL _ hlen hhead, ebind_ok]
    have hmap : (p0 :: rest).map (fun p => some (ddFull p)) =
        ((p0 :: rest).map ddFull).map some := by
      rw [List.map_map]
      rfl
    rw [hmap, allFinite_map_some, finGuard_some, List.length_map]
    have hnn : (0:ℚ) ≤ (((p0 :: rest).length : ℕ) : ℚ) * alpha :=
      mul_nonneg (Nat.cast_nonneg _) ha0.le
    rw [show pytrunc ((((p0 :: rest).length : ℕ) : ℚ) * alpha) =
        ⌊(((p0 :: rest).length : ℕ) : ℚ) * alpha⌋ from by
      unfold pytrunc
      rw [if_pos hnn]]
    have hfnn : 0 ≤ ⌊(((p0 :: rest).length : ℕ) : ℚ) * alpha⌋ :=
      Int.floor_nonneg.mpr hnn
    have hn1 : (1:ℚ) ≤ (((p0 :: rest).length : ℕ) : ℚ) := by
      have : 1 ≤ (p0 :: rest).length := by simp
      exact_mod_cast this
    have hflt : ⌊(((p0 :: rest).length : ℕ) : ℚ) * alpha⌋ <
        (((p0 :: rest).length : ℕ) : ℤ) := by
      rw [Int.floor_lt]
      push_cast
      nlinarith
    have hidx_lt : (⌊(((p0 :: rest).length : ℕ) : ℚ) * alpha⌋).toNat <
        (sortDesc ((p0 :: rest).map ddFull)).length := by
      rw [length_sortDesc, List.length_map]
      omega
    obtain ⟨v, hv⟩ : ∃ v, (sortDesc ((p0 :: rest).map ddFull)).get?
        (⌊(((p0 :: rest).length : ℕ) : ℚ) * alpha⌋).toNat = some v := by
      cases hq : (sortDesc ((p0 :: rest).map ddFull)).get?
          (⌊(((p0 :: rest).length : ℕ) : ℚ) * alpha⌋).toNat with
      | none => exact absurd (List.get?_eq_none.mp hq) (not_le.mpr hidx_lt)
      | some w => exact ⟨w, rfl⟩
    have hpi : pygetItem (sortDesc ((p0 :: rest).map ddFull))
        ⌊(((p0 :: rest).length : ℕ) : ℚ) * alpha⌋ = .ok v := by
      rw [← Int.toNat_of_nonneg hfnn]
      exact pygetItem_nat hv
    rw [hpi, ebind_ok]
    have hgetD : (sortDesc ((p0 :: rest).map ddFull)).getD
        (⌊(((p0 :: rest).length : ℕ) : ℚ) * alpha⌋).toNat 0 = v := by
      rw [List.getD_eq_getElem?_getD, ← List.get?_eq_getElem?, hv]
      rfl
    rw [hgetD]

/-- Witness for C4: the spec's own worked example.  Five two-step paths with
drawdown samples `{-1/2, -3/10, -1/10, 0, 0}`; sorted descending they are
`[0, 0, -1/10, -3/10, -1/2]`, the index is `⌊5 · 1/2⌋ = 2`, the selected
sample is `-1/10` and the multiplier is `1/(1 - 1/10) = 10/9`. -/
theorem claim_C4_witness :
    get_threshold_multiplier [[2, 1], [10, 7], [10, 9], [1, 1], [5, 6]]
      (1/2) (some 2) = .ok (some (10/9)) := by
  have h := claim_C4_rank_based_quantile
    [[2, 1], [10, 7], [10, 9], [1, 1], [5, 6]] 2 (1/2)
    (by exact List.cons_ne_nil _ _) (by norm_num) (by norm_num) (by norm_num)
    (by norm_num) (by norm_num)
  refine h.2.2.trans ?_
  norm_num [sortDesc, sortAsc, ddFull, np_div, min_def]
  try simp [List.insertionSort, List.orderedInsert]
  try norm_num [List.getD]
  try simp
  try norm_num

/-- C5: the marginal prices computed by `price_at_balance` for index pair
`(i, j)` and for the swapped pair `(j, i)` multiply to exactly `1` (in exact
arithmetic; the claim's floating tolerance is trivially met).  Whenever both
calls succeed, the shared invariant and `c` value cancel. -/
theorem claim_C5_price_reciprocal (amplification precision : ℚ)
    (balances : List ℚ) (i j : ℤ) (p q : ℚ)
    (_hA : 0 < amplification)
    (_hbal : ∀ x ∈ balances, 0 < x)
    (_hij : i ≠ j)
    (hp : price_at_balance amplification precision balances i j = .ok p)
    (hq : price_at_balance amplification precision balances j i = .ok q) :
    p * q = 1 := by
  simp only [price_at_balance] at hp hq
  cases hd : calculate_d amplification precision balances 128 with
  | error e => rw [hd, ebind_error] at hp; exact Except.noConfusion hp
  | ok dOpt =>
    rw [hd, ebind_ok] at hp hq
    cases dOpt with
    | none => rw [pyval_none] at hp; exact Except.noConfusion hp
    | some d =>
      rw [pyval_some] at hp hq
      cases hc : cLoop d (balances.length : ℚ) (sortAsc balances) d with
      | error e => rw [hc, ebind_error] at hp; exact Except.noConfusion hp
      | ok c =>
        rw [hc, ebind_ok] at hp hq
        cases hxi : pygetItem balances i with
        | error e => rw [hxi, ebind_error] at hp; exact Except.noConfusion hp
        | ok xi =>
          cases hxj : pygetItem balances j with
          | error e =>
            rw [hxi, ebind_ok, hxj, ebind_error] at hp
            exact Except.noConfusion hp
          | ok xj =>
            rw [hxi, ebind_ok, hxj, ebind_ok] at hp
            rw [hxj, ebind_ok, hxi, ebind_ok] at hq
            cases ht : pydiv (xj * (amplification * (balances.length : ℚ) * xi + c))
                (amplification * (balances.length : ℚ) * xj + c) with
            | error e => rw [ht, ebind_error] at hp; exact Except.noConfusion hp
            | ok t =>
              rw [ht, ebind_ok] at hp
              cases hs : pydiv (xi * (amplification * (balances.length : ℚ) * xj + c))
                  (amplification * (balances.length : ℚ) * xi + c) with
              | error e => rw [hs, ebind_error] at hq; exact Except.noConfusion hq
              | ok s =>
                rw [hs, ebind_ok] at hq
                obtain ⟨hxi0, hpt⟩ := pydiv_ok hp
                obtain ⟨hxj0, hqs⟩ := pydiv_ok hq
                obtain ⟨hden1, ht'⟩ := pydiv_ok ht
                obtain ⟨hden2, hs'⟩ := pydiv_ok hs
                subst hpt hqs ht' hs'
                field_simp
                ring

/-- Witness for C5 at balances `[1, 2]`, amplification `1`, precision `1`
(the solver converges on the first iteration to `D = 102/35`): the two
prices are `304151/436802` and its reciprocal, and they multiply to `1`. -/
theorem claim_C5_witness :
    price_at_balance 1 1 [1, 2] 1 0 = .ok (304151/436802) ∧
      price_at_balance 1 1 [1, 2] 0 1 = .ok (436802/304151) ∧
      (304151/436802 : ℚ) * (436802/304151) = 1 := by
  have h1 : dpLoop 3 2 [1, 2] 3 = .ok (27/8) := by
    norm_num [dpLoop, pydiv]
  have h2 : pydiv ((2 * 3 + (27/8) * 2) * 3) ((2 - 1) * 3 + (2 + 1) * (27/8)) =
      .ok (102/35) := by
    norm_num [pydiv]
  have h3 : has_converged 1 3 (102/35) = true := by
    norm_num [has_converged, abs_of_nonneg]
  have hloop : calcDLoop 1 2 3 2 [1, 2] 3 (127 + 1) = .ok (some (102/35)) :=
    calcDLoop_converged h1 h2 h3
  have hd : calculate_d 1 1 [1, 2] 128 = .ok (some (102/35)) := by
    norm_num [calculate_d, sortAsc, List.insertionSort, List.orderedInsert]
    exact hloop
  have hp : price_at_balance 1 1 [1, 2] 1 0 = .ok (304151/436802) := by
    norm_num [price_at_balance, hd, cLoop, pydiv, pygetItem]
    try simp
    try norm_num [pydiv]
  have hq : price_at_balance 1 1 [1, 2] 0 1 = .ok (436802/304151) := by
    norm_num [price_at_balance, hd, cLoop, pydiv, pygetItem]
    try simp
    try norm_num [pydiv]
  exact ⟨hp, hq, claim_C5_price_reciprocal 1 1 [1, 2] 1 0 _ _ (by norm_num)
    (by norm_num) (by norm_num) hp hq⟩

/-- C8 counterexample: `at_step = 3` exceeds the length (2) of the second
path, yet no InvalidRange error is raised — only the first path (length 3)
is validated, and the function returns the multiplier `1`. -/
theorem claim_C8_counterexample :
    get_threshold_multiplier [[1, 1, 1], [1, 1]] (1/2) (some 3) =
      .ok (some 1) := by
  norm_num [get_threshold_multiplier, ddList, pyslice]
  try simp
  try norm_num [get_initial_drawdown, np_div, min_def]
  try simp [allFinite, sortDesc, sortAsc, List.insertionSort, List.orderedInsert,
    pygetItem, pytrunc]
  try norm_num
  try simp
  try norm_num

/-- C8 (amended): with a given `at_step`, `get_threshold_multiplier` fails
with the range error exactly when `at_step` exceeds the length of the
*first* path of the collection; later paths are never validated. -/
theorem claim_C8_amended_first_path_check (p0 : List ℚ) (ps : List (List ℚ))
    (alpha : ℚ) (k : ℤ) :
    get_threshold_multiplier (p0 :: ps) alpha (some k) = .error .invalidRange ↔
      (p0.length : ℤ) < k :=
  gtm_invalidRange_iff p0 ps alpha k

/-- C9: on a non-empty collection of everywhere-positive paths, whenever
`get_threshold_multiplier` returns a (finite) value, that value is at least
`1`, because every drawdown sample `min/first − 1` lies in `(-1, 0]`. -/
theorem claim_C9_multiplier_ge_one (paths : List (List ℚ)) (alpha : ℚ)
    (at_step : Option ℤ) (m : ℚ)
    (hpos : ∀ p ∈ paths, ∀ x ∈ p, 0 < x)
    (hok : get_threshold_multiplier paths alpha at_step = .ok (some m)) :
    1 ≤ m := by
  cases paths with
  | nil => exact absurd hok (by simp [get_threshold_multiplier])
  | cons p0 ps =>
    simp only [get_threshold_multiplier] at hok
    split at hok
    · exact Except.noConfusion hok
    · exact gtm_tail_ge_one hpos hok

/-- Witness for C9: two positive paths, `alpha = 1/2`, `at_step = 2`; the
returned multiplier is `4 ≥ 1` (samples `0` and `-3/4`, sorted descending
`[0, -3/4]`, index `⌊2 · 1/2⌋ = 1`, multiplier `1/(1 - 3/4) = 4`). -/
theorem claim_C9_witness :
    get_threshold_multiplier [[(1:ℚ), 2], [4, 1]] (1/2) (some 2) =
        .ok (some 4) ∧ (1:ℚ) ≤ 4 := by
  have hok : get_threshold_multiplier [[(1:ℚ), 2], [4, 1]] (1/2) (some 2) =
      .ok (some 4) := by
    norm_num [get_threshold_multiplier, ddList, pyslice]
    try simp
    try norm_num [get_initial_drawdown, np_div, min_def]
    try simp [allFinite, sortDesc, sortAsc, List.insertionSort,
      List.orderedInsert, pygetItem, pytrunc]
    try norm_num
    try simp
    try norm_num
  exact ⟨hok, claim_C9_multiplier_ge_one _ _ _ _ (by norm_num) hok⟩

/-- C10: `at_step` is validated only against the first path: whenever the
first path is long enough (`at_step ≤ len(paths[0])`), no range error is
raised, regardless of the lengths of the other paths. -/
theorem claim_C10_first_path_only_validation (p0 : List ℚ) (ps : List (List ℚ))
    (alpha : ℚ) (k : ℤ) (hk : k ≤ (p0.length : ℤ)) :
    get_threshold_multiplier (p0 :: ps) alpha (some k) ≠ .error .invalidRange :=
  fun h => absurd ((gtm_invalidRange_iff p0 ps alpha k).mp h) (not_lt.mpr hk)

/-- Witness for C10: first path of length 3, second of length 2, and
`at_step = 3` — strictly longer than the second path — yet no range error. -/
theorem claim_C10_witness :
    (3:ℤ) ≤ (([(1:ℚ), 1, 1].length : ℕ) : ℤ) ∧
      get_threshold_multiplier [[(1:ℚ), 1, 1], [1, 1]] (1/2) (some 3) ≠
        .error .invalidRange :=
  ⟨by norm_num,
    claim_C10_first_path_only_validation [(1:ℚ), 1, 1] [[1, 1]] (1/2) 3
      (by norm_num)⟩

end Collat
